import Mathlib

/-!
Shallow embedding of the search-result extraction and pagination engine of
the `reviu` repository (Go).  Go strings are modelled as `List Char`;
fallible operations return `Except`; the browser driver and the context
cancellation token are modelled as explicit oracles recording the outcome
of each external call.  Every definition is translated from the Go source
(file and function named in its doc comment); definitions whose doc
comment starts with `Modelled from the spec:` instead follow the
specification's words and exist only to be compared with the code.
-/

/-- Go `strings.HasPrefix(s, pre)`, on the `List Char` model of strings
(first argument is the candidate string, second the tested front part). -/
def listHasPre : List Char → List Char → Bool
  | _, [] => true
  | [], _ :: _ => false
  | a :: as, b :: bs => a = b && listHasPre as bs

/-- Go `strings.Index(hay, needle)` (0-based index of the first occurrence
of `needle` in `hay`, `none` when absent), on the `List Char` model. -/
def strIndex : List Char → List Char → Option Nat
  | hay, needle =>
    if listHasPre hay needle then some 0
    else
      match hay with
      | [] => none
      | _ :: t => (strIndex t needle).map (· + 1)

/-- Go `strings.Contains(hay, needle)` via `strIndex`. -/
def strContains (hay needle : List Char) : Bool :=
  (strIndex hay needle).isSome

/-- The constant needle `"id="` used by `extractIDFromURL`
(src/internal/result/export.go). -/
def idNeedle : List Char := "id=".toList

/-- Go `extractIDFromURL` (src/internal/result/export.go, lines 219-237):
find the first occurrence of the substring `"id="`, keep everything after
it, and truncate at the next `"&"` when one follows; no occurrence yields
the empty string. -/
def extractIDFromURL (urlStr : List Char) : List Char :=
  match strIndex urlStr idNeedle with
  | none => []
  | some idPos =>
    let idPart := urlStr.drop (idPos + 3)
    match strIndex idPart ['&'] with
    | none => idPart
    | some ampPos => idPart.take ampPos

/-- The fixed site base of `absoluteURL` (src/unnamed/part_005, line 422). -/
def capesBaseURL : List Char := "https://www.periodicos.capes.gov.br".toList

/-- Go `absoluteURL` (src/unnamed/part_005, lines 415-428): a URL starting
with the literal `"http"` is returned unchanged; one starting with `"/"`
is appended to the site base; anything else is appended to the base with a
separating `"/"`. -/
def absoluteURL (urlStr : List Char) : List Char :=
  if listHasPre urlStr "http".toList then urlStr
  else if listHasPre urlStr ['/'] then capesBaseURL ++ urlStr
  else capesBaseURL ++ '/' :: urlStr

/-- Go `cleanTitle` (src/unnamed/part_005, lines 406-413): trim the title
and collapse runs of whitespace to a single space
(`strings.Join(strings.Fields(title), " ")` after `TrimSpace`). -/
def cleanTitle (title : List Char) : List Char :=
  List.intercalate [' '] ((title.splitOnP (fun c => c.isWhitespace)).filter (· ≠ []))

/-- Loop of Go `filepath.Ext`: walk the path from its end (the list here is
the reversed path), stop at a path separator, and return from the last dot
onward; `acc` accumulates the characters already walked, in source order. -/
def extLoop : List Char → List Char → List Char
  | [], _ => []
  | c :: rest, acc =>
    if c = '/' then []
    else if c = '.' then c :: acc
    else extLoop rest (c :: acc)

/-- Go `filepath.Ext(path)`: the suffix of the final path element starting
at its last dot, or the empty string when that element has no dot. -/
def filepathExt (path : List Char) : List Char :=
  extLoop path.reverse []

/-- Go `ensureExtension` (src/internal/result/export.go, lines 108-121):
append `"." + ext` when the path has no extension, replace a differing
extension, keep a matching one. -/
def ensureExtension (filePath ext : List Char) : List Char :=
  let currentExt := filepathExt filePath
  if currentExt = [] then filePath ++ '.' :: ext
  else if currentExt.drop 1 ≠ ext then
    filePath.take (filePath.length - currentExt.length) ++ '.' :: ext
  else filePath

/-- Path rewrite performed by Go `NewWriter` (src/internal/result/export.go,
line 95): `config.FilePath = ensureExtension(config.FilePath, string(config.Format))`. -/
def newWriterFilePath (filePath format : List Char) : List Char :=
  ensureExtension filePath format

/-- Go constant `ResultsPerPage` (src/unnamed/part_005, line 20). -/
def ResultsPerPage : Nat := 30

/-- Page-count estimate of Go `Process` (src/unnamed/part_005, line 120):
`totalPages := (totalResults + ResultsPerPage - 1) / ResultsPerPage`. -/
def totalPagesFor (totalResults : Nat) : Nat :=
  (totalResults + ResultsPerPage - 1) / ResultsPerPage

/-- Effective page bound of Go `Process` (src/unnamed/part_005, lines
124-128): the configured cap wins when it is positive and below the
estimate. -/
def maxPagesToProcess (maxPages : Int) (totalPages : Nat) : Nat :=
  if 0 < maxPages ∧ maxPages < (totalPages : Int) then maxPages.toNat
  else totalPages


/-- Go `browser.LinkData` (src/internal/browser/dom.go, lines 14-18); the
`Attributes` map is unused by the extractor and omitted. -/
structure LinkData where
  Text : List Char
  URL : List Char
deriving DecidableEq

/-- Go `result.SearchResult` (src/internal/result/export.go): one extracted
publication entry. -/
structure SearchResult where
  Title : List Char
  URL : List Char
  ID : List Char
  Author : List Char
  Year : List Char
  Source : List Char
  PageFound : Nat
  Position : Nat
deriving DecidableEq

/-- Go `result.SearchCollection` (src/internal/result/export.go):
`SearchDate` is an opaque timestamp irrelevant to every claim and omitted. -/
structure SearchCollection where
  SearchTerm : List Char
  TotalPages : Nat
  TotalResults : Nat
  Results : List SearchResult
deriving DecidableEq

/-- Go `NewSearchCollection` (src/internal/result/export.go, lines 181-187). -/
def NewSearchCollection (searchTerm : List Char) : SearchCollection :=
  { SearchTerm := searchTerm, TotalPages := 0, TotalResults := 0, Results := [] }

/-- Go `(*SearchCollection).AddResults` (src/internal/result/export.go,
lines 196-199): append and resynchronize `TotalResults` with the length. -/
def SearchCollection.AddResults (c : SearchCollection) (results : List SearchResult) : SearchCollection :=
  { c with Results := c.Results ++ results, TotalResults := (c.Results ++ results).length }

/-- Go `(*SearchCollection).UpdatePageCount` (src/internal/result/export.go,
lines 202-206): raise `TotalPages` to `pageCount` when that is higher. -/
def SearchCollection.UpdatePageCount (c : SearchCollection) (pageCount : Nat) : SearchCollection :=
  if pageCount > c.TotalPages then { c with TotalPages := pageCount } else c

/-- Body of the `for i, link := range links` loop of Go
`extractResultsFromCurrentPage` (src/unnamed/part_005, lines 207-224):
build one `SearchResult` per link, with `Position = i + 1`; the metadata
oracle `meta` stands for `extractMetadataForResult`, which visits the
record URL in an isolated detail session and returns (author, year). -/
def buildResults (meta : List Char → List Char × List Char) (pageNum : Nat) :
    List LinkData → Nat → List SearchResult
  | [], _ => []
  | link :: rest, i =>
    { Title := cleanTitle link.Text
      URL := absoluteURL link.URL
      ID := extractIDFromURL link.URL
      Author := (meta (absoluteURL link.URL)).1
      Year := (meta (absoluteURL link.URL)).2
      Source := "CAPES".toList
      PageFound := pageNum
      Position := i + 1 } :: buildResults meta pageNum rest (i + 1)

/-- Go `extractResultsFromCurrentPage` (src/unnamed/part_005, lines
192-227): `linksResult` is the outcome of `browser.ExtractLinks`; an
extraction error propagates, zero links yield the empty list (a logged
soft warning, not an error). -/
def extractResultsFromCurrentPage (meta : List Char → List Char × List Char)
    (pageNum : Nat) (linksResult : Except Unit (List LinkData)) :
    Except Unit (List SearchResult) :=
  match linksResult with
  | .error e => .error e
  | .ok links => .ok (buildResults meta pageNum links 0)

/-- Errors surfaced by Go `Process`: the context-cancellation error of the
`select` at the loop top, and the browser error of the initial `Open`. -/
inductive ProcErr where
  | cancelled
  | initialOpenFailed
deriving DecidableEq

/-- Oracle recording the outcome of every external call `Process` makes:
whether the initial `Open` succeeds, the parsed total-result count
(`none` = the count element is missing or unparsable, so the Go code falls
back to 100), per-page `Open` outcomes, per-page `ExtractLinks` outcomes,
the detail-page metadata, and the per-iteration cancellation check. -/
structure BrowserRun where
  openInitialOk : Bool
  parsedTotalResults : Option Nat
  pageOpenOk : Nat → Bool
  links : Nat → Except Unit (List LinkData)
  meta : List Char → List Char × List Char
  cancelled : Nat → Bool

/-- Total-result estimate actually used by Go `Process` (src/unnamed/
part_005, lines 63-72 and 113-117): the parsed count, or the default 100
when the count element is missing or its text does not parse. -/
def effTotalResults (o : BrowserRun) : Nat :=
  match o.parsedTotalResults with
  | some n => n
  | none => 100

/-- Effective loop bound of Go `Process` for a run: `maxPagesToProcess`
applied to the page estimate derived from the total-result estimate. -/
def effectiveMaxPages (o : BrowserRun) (maxPages : Int) : Nat :=
  maxPagesToProcess maxPages (totalPagesFor (effTotalResults o))

/-- The `for currentPage := 1; ...` loop of Go `Process` (src/unnamed/
part_005, lines 131-183), over the list of remaining page indices: check
cancellation first; for a page past the first, close the old session and
open a new one, `break`ing out of the loop when that `Open` fails; extract
(a failure only skips the page's results); `UpdatePageCount`; recurse.
The politeness sleep has no observable effect and is not modelled. -/
def processPages (o : BrowserRun) : List Nat → SearchCollection → SearchCollection × Option ProcErr
  | [], coll => (coll, none)
  | p :: rest, coll =>
    if o.cancelled p then (coll, some .cancelled)
    else if 1 < p ∧ o.pageOpenOk p = false then (coll, none)
    else
      let coll1 := match extractResultsFromCurrentPage o.meta p (o.links p) with
        | .error _ => coll
        | .ok results => coll.AddResults results
      processPages o rest (coll1.UpdatePageCount p)

/-- Go `Process` (src/unnamed/part_005, lines 95-189): create the
collection, open the initial URL (failure returns `nil` plus the error),
estimate the page count, and run the page loop over indices
`1..maxPagesToProcess`; the returned pair mirrors Go's
`(*SearchCollection, error)`. -/
def Process (o : BrowserRun) (searchTerm : List Char) (maxPages : Int) :
    Option SearchCollection × Option ProcErr :=
  if o.openInitialOk = false then (none, some .initialOpenFailed)
  else
    let res := processPages o (List.range' 1 (effectiveMaxPages o maxPages))
      (NewSearchCollection searchTerm)
    (some res.1, res.2)


/-- Go `CSVHeader` (src/internal/result/csv.go): the fixed column names of
the delimited output, in the column order of the current writer variant. -/
def CSVHeader : List (List Char) :=
  ["Título".toList, "Autor".toList, "Ano".toList, "Link de acesso".toList]

/-- State of Go `CSVWriter` (src/internal/result/csv.go): `initialized`
models `writer != nil` (set by `Initialize`); `rows` is the in-memory view
of the rows emitted so far (byte-level serialization is the out-of-scope
sink contract); `rowCount` and `headerWritten` are the Go fields. -/
structure CSVWriter where
  initialized : Bool
  headerWritten : Bool
  rowCount : Nat
  rows : List (List (List Char))
deriving DecidableEq

/-- Go `(*CSVWriter).WriteHeader` (src/internal/result/csv.go, lines
289-307): error when not initialized, a silent no-op when the header was
already written, otherwise emit `CSVHeader` once and latch
`headerWritten`. -/
def CSVWriter.WriteHeader (w : CSVWriter) : CSVWriter × Except Unit Unit :=
  if w.initialized = false then (w, .error ())
  else if w.headerWritten then (w, .ok ())
  else ({ w with rows := w.rows ++ [CSVHeader], headerWritten := true }, .ok ())

/-- Outcome of one attempt of Go `goToNextPage`: whether each of the five
browser calls of that attempt would succeed. -/
structure PaginationAttempt where
  scrollToBottomOk : Bool
  scrollForDurationOk : Bool
  clickOk : Bool
  navOk : Bool
  resultsOk : Bool
deriving DecidableEq

/-- An attempt of Go `goToNextPage` reaches its `return nil` exactly when
the click, the navigation wait and the result-marker wait all succeed (the
two scroll failures are logged and the attempt continues anyway). -/
def attemptSucceeds (s : PaginationAttempt) : Bool :=
  s.clickOk && s.navOk && s.resultsOk

deriving instance DecidableEq for Except

/-- Errors of Go `goToNextPage`, one per distinct `NewBrowserError` site. -/
inductive PagErr where
  | click
  | nav
  | results
  | exhausted
deriving DecidableEq

/-- Go `maxRetries` of `goToNextPage` (src/unnamed/part_005, lines
320-323): the configured `RetryAttempts`, or 3 when not positive. -/
def goMaxRetries (retryAttempts : Int) : Nat :=
  if retryAttempts ≤ 0 then 3 else retryAttempts.toNat

/-- Timeout handed to `WaitForNavigation` on a given attempt of Go
`goToNextPage` (src/unnamed/part_005, lines 325-369), in seconds: the
additively growing `timeout := baseTimeout + (attempt-1)*5s` is used only
as the fallback when `NavigationTimeout` is not positive; a configured
positive `NavigationTimeout` is used as is on every attempt. -/
def navTimeoutFor (navigationTimeout : Int) (attempt : Nat) : Int :=
  let baseTimeout : Int := if navigationTimeout ≤ 0 then 20 else navigationTimeout
  let timeout : Int := baseTimeout + ((attempt : Int) - 1) * 5
  if navigationTimeout ≤ 0 then timeout else navigationTimeout

/-- Timeout handed to `WaitForElement` on a given attempt of Go
`goToNextPage` (src/unnamed/part_005, lines 380-383), in seconds. -/
def resultTimeoutFor (navigationTimeout pageTimeout : Int) (attempt : Nat) : Int :=
  if pageTimeout ≤ 0 then
    (if navigationTimeout ≤ 0 then (20 : Int) else navigationTimeout) + ((attempt : Int) - 1) * 5 + 5
  else pageTimeout

/-- The `for attempt := 1; ...` loop of Go `goToNextPage` (src/unnamed/
part_005, lines 330-399), with `fuel` the number of loop iterations still
allowed: scroll failures are ignored; a click, navigation-wait or
result-wait failure returns its error on the last attempt and otherwise
retries after a backoff sleep; an attempt passing all three returns
success. -/
def goAttempts (o : Nat → PaginationAttempt) (maxRetries : Nat) : Nat → Nat → Except PagErr Unit
  | _, 0 => .error .exhausted
  | attempt, fuel + 1 =>
    let s := o attempt
    if s.clickOk = false then
      if attempt = maxRetries then .error .click
      else goAttempts o maxRetries (attempt + 1) fuel
    else if s.navOk = false then
      if attempt = maxRetries then .error .nav
      else goAttempts o maxRetries (attempt + 1) fuel
    else if s.resultsOk = false then
      if attempt = maxRetries then .error .results
      else goAttempts o maxRetries (attempt + 1) fuel
    else .ok ()

/-- Go `goToNextPage` (src/unnamed/part_005, lines 318-402): run the
attempt loop starting at attempt 1. -/
def goToNextPage (o : Nat → PaginationAttempt) (retryAttempts : Int) : Except PagErr Unit :=
  goAttempts o (goMaxRetries retryAttempts) 1 (goMaxRetries retryAttempts)

/-- Modelled from the spec: the five-step attempt of the click-based
strategy as §4.3 words it, where "any step's failure triggers a short
backoff sleep and a retry of the whole five-step sequence" — so a scroll
failure also aborts the attempt. -/
def specAttemptSucceeds (s : PaginationAttempt) : Bool :=
  s.scrollToBottomOk && s.scrollForDurationOk && s.clickOk && s.navOk && s.resultsOk

/-- Modelled from the spec: the retry loop of the click-based strategy as
§4.3 words it, reporting a pagination failure only after `MaxAttempts`
attempts, where an attempt succeeds only when all five steps succeed. -/
def goToNextPageSpec (o : Nat → PaginationAttempt) (retryAttempts : Int) : Except Unit Unit :=
  if (List.range' 1 (goMaxRetries retryAttempts)).any (fun k => specAttemptSucceeds (o k))
  then .ok () else .error ()

/-- Modelled from the spec: the orchestrator loop as §4.4 step 4 words it
("on a fatal session-open failure for a given page, log the failure, skip
that page, and continue to the next index") — identical to `processPages`
except that a failed page `Open` skips the page instead of leaving the
loop. -/
def processPagesSpec (o : BrowserRun) : List Nat → SearchCollection → SearchCollection × Option ProcErr
  | [], coll => (coll, none)
  | p :: rest, coll =>
    if o.cancelled p then (coll, some .cancelled)
    else if 1 < p ∧ o.pageOpenOk p = false then processPagesSpec o rest coll
    else
      let coll1 := match extractResultsFromCurrentPage o.meta p (o.links p) with
        | .error _ => coll
        | .ok results => coll.AddResults results
      processPagesSpec o rest (coll1.UpdatePageCount p)

/-- Modelled from the spec: characters the claim's notion of a URL scheme
may contain after its leading letter (RFC 3986 `scheme` syntax). -/
def isSchemeChar (c : Char) : Bool :=
  c.isAlphanum || c = '+' || c = '-' || c = '.'

/-- Modelled from the spec: whether a URL "already has a scheme" (claim C8
and §4.1) — a leading letter, a run of scheme characters, then a colon. -/
def specHasScheme (u : List Char) : Bool :=
  match u with
  | [] => false
  | c :: _ =>
    c.isAlpha && (u.drop (u.takeWhile isSchemeChar).length).head? = some ':'

/-- Modelled from the spec: whether the query part of a URL (what follows
the first `?`) contains a component whose key is exactly `id` — the
"specific URL query key" of claim C7 and §4.1. -/
def hasQueryKeyId (u : List Char) : Bool :=
  match strIndex u ['?'] with
  | none => false
  | some i =>
    ((u.drop (i + 1)).splitOnP (· = '&')).any (fun comp => listHasPre comp "id=".toList)


/-- Decidable form of "every record of the collection was found on a page
before `p`". -/
def recordsBelow (c : SearchCollection) (p : Nat) : Bool :=
  c.Results.all (fun r => decide (r.PageFound < p))

/-- Decidable form of "every record's `PageFound` is at most the
collection's `TotalPages`". -/
def recordsWithin (c : SearchCollection) : Bool :=
  c.Results.all (fun r => decide (r.PageFound ≤ c.TotalPages))

/-- A run whose estimate yields three pages and whose page-2 session open
fails while page 3 would open fine and carries a result. -/
def oBreakRun : BrowserRun :=
  { openInitialOk := true, parsedTotalResults := some 90,
    pageOpenOk := fun q => decide (q ≠ 2),
    links := fun _ => .ok [⟨"T".toList, "/d?id=7".toList⟩],
    meta := fun _ => ([], []), cancelled := fun _ => false }

/-- A run whose estimate yields two pages and whose cancellation token
fires from the second loop iteration on. -/
def oCancelRun : BrowserRun :=
  { openInitialOk := true, parsedTotalResults := some 60,
    pageOpenOk := fun _ => true,
    links := fun _ => .ok [⟨"T".toList, "/d?id=7".toList⟩],
    meta := fun _ => ([], []), cancelled := fun q => decide (2 ≤ q) }

/-- A run whose initial session open fails. -/
def oInitFailRun : BrowserRun :=
  { openInitialOk := false, parsedTotalResults := some 60,
    pageOpenOk := fun _ => true, links := fun _ => .ok [],
    meta := fun _ => ([], []), cancelled := fun _ => false }

/-- A run whose estimate yields two pages, where page 1 carries one result
and page 2 renders no result anchors. -/
def oPagesRun : BrowserRun :=
  { openInitialOk := true, parsedTotalResults := some 31,
    pageOpenOk := fun _ => true,
    links := fun p => if p = 1 then .ok [⟨"T".toList, "/d?id=7".toList⟩] else .ok [],
    meta := fun _ => ([], []), cancelled := fun _ => false }

/-- A pagination oracle whose attempts 1 and 2 fail (click, navigation and
result waits all time out) and whose attempt 3 succeeds. -/
def oThirdTry : Nat → PaginationAttempt :=
  fun k => ⟨true, true, decide (3 ≤ k), decide (3 ≤ k), decide (3 ≤ k)⟩

/-- A pagination oracle on which both scroll steps always fail while the
click and both waits always succeed. -/
def oScrollFail : Nat → PaginationAttempt :=
  fun _ => ⟨false, false, true, true, true⟩

/-! ### Supporting lemmas -/

lemma listHasPre_append (pre rest : List Char) : listHasPre (pre ++ rest) pre = true := by
  induction pre with
  | nil => simp [listHasPre]
  | cons a as ih => simp [listHasPre, ih]

lemma buildResults_map_position (meta : List Char → List Char × List Char) (pageNum : Nat) :
    ∀ (links : List LinkData) (i : Nat),
      (buildResults meta pageNum links i).map (·.Position) = List.range' (i + 1) links.length := by
  intro links
  induction links with
  | nil => intro i; rfl
  | cons l ls ih =>
    intro i
    simp only [buildResults, List.map_cons, List.length_cons, List.range'_succ, ih (i + 1)]

lemma buildResults_pageFound (meta : List Char → List Char × List Char) (pageNum : Nat) :
    ∀ (links : List LinkData) (i : Nat) (r : SearchResult),
      r ∈ buildResults meta pageNum links i → r.PageFound = pageNum := by
  intro links
  induction links with
  | nil => intro i r h; cases h
  | cons l ls ih =>
    intro i r h
    rcases List.mem_cons.mp h with h1 | h2
    · subst h1; rfl
    · exact ih (i + 1) r h2

lemma buildResults_length (meta : List Char → List Char × List Char) (pageNum : Nat)
    (links : List LinkData) (i : Nat) :
    (buildResults meta pageNum links i).length = links.length := by
  have h := congrArg List.length (buildResults_map_position meta pageNum links i)
  simpa using h

/-- C3. The page-count estimate is the ceiling of `total / 30` — it is the
least page count covering all results — `total = 3016` yields 101 pages,
and a positive configured `MaxPages` below the estimate becomes the
effective loop bound, so `MaxPages = 5` yields a bound of 5. -/
theorem page_count_estimation :
    (∀ total : Nat, total ≤ ResultsPerPage * totalPagesFor total ∧
      ∀ m : Nat, total ≤ ResultsPerPage * m → totalPagesFor total ≤ m) ∧
    totalPagesFor 3016 = 101 ∧
    (∀ (maxPages : Int) (tp : Nat), 0 < maxPages → maxPages < (tp : Int) →
      maxPagesToProcess maxPages tp = maxPages.toNat) ∧
    maxPagesToProcess 5 (totalPagesFor 3016) = 5 := by
  refine ⟨?_, by decide, ?_, by decide⟩
  · intro total
    constructor
    · simp only [totalPagesFor, ResultsPerPage]; omega
    · intro m hm
      simp only [totalPagesFor, ResultsPerPage] at *
      omega
  · intro maxPages tp h1 h2
    simp only [maxPagesToProcess, if_pos (And.intro h1 h2)]

/-- Witness for C3 at `total = 3016`, `MaxPages = 5`. -/
theorem page_count_estimation_witness :
    totalPagesFor 3016 ≤ 101 ∧ maxPagesToProcess 5 101 = 5 :=
  ⟨(page_count_estimation.1 3016).2 101 (by decide),
    by have h := page_count_estimation.2.2.1 5 101 (by decide) (by decide); simpa using h⟩

/-- C5. On every page the extractor numbers its records 1..N: the produced
`Position` values are exactly `1, 2, ..., N` for `N` the number of result
anchors found, hence pairwise distinct and contiguous from 1, and every
record carries the page's `PageFound`. -/
theorem extract_position_invariant (meta : List Char → List Char × List Char)
    (pageNum : Nat) (links : List LinkData) :
    ∃ rs, extractResultsFromCurrentPage meta pageNum (.ok links) = .ok rs ∧
      rs.map (·.Position) = List.range' 1 links.length ∧
      (rs.map (·.Position)).Nodup ∧
      (∀ r ∈ rs, r.PageFound = pageNum) ∧
      rs.length = links.length := by
  refine ⟨buildResults meta pageNum links 0, rfl, ?_, ?_, ?_, ?_⟩
  · simpa using buildResults_map_position meta pageNum links 0
  · have h := buildResults_map_position meta pageNum links 0
    rw [h]
    exact List.nodup_range' 1 links.length
  · intro r hr; exact buildResults_pageFound meta pageNum links 0 r hr
  · exact buildResults_length meta pageNum links 0

/-- Witness for C5 on a concrete two-anchor page. -/
theorem extract_position_invariant_witness :
    ∃ rs, extractResultsFromCurrentPage (fun _ => ([], [])) 4
        (.ok [⟨"A".toList, "/a?id=1".toList⟩, ⟨"B".toList, "/b?id=2".toList⟩]) = .ok rs ∧
      rs.map (·.Position) = List.range' 1 2 ∧
      (rs.map (·.Position)).Nodup ∧
      (∀ r ∈ rs, r.PageFound = 4) ∧
      rs.length = 2 :=
  extract_position_invariant (fun _ => ([], [])) 4
    [⟨"A".toList, "/a?id=1".toList⟩, ⟨"B".toList, "/b?id=2".toList⟩]

lemma strIndex_single_eq_takeWhile (c : Char) :
    ∀ l : List Char,
      (match strIndex l [c] with
       | none => l
       | some j => l.take j) = l.takeWhile (fun x => decide (x ≠ c)) := by
  intro l
  induction l with
  | nil => rfl
  | cons a t ih =>
    by_cases hac : a = c
    · subst hac
      simp [strIndex, listHasPre, List.takeWhile_cons]
    · simp only [strIndex, listHasPre, List.takeWhile_cons]
      rw [if_neg (by simp [hac]), if_pos (by simp [hac])]
      cases h : strIndex t [c] with
      | none =>
        rw [h] at ih
        simp only [Option.map_none']
        rw [← ih]
      | some j =>
        rw [h] at ih
        simp only [Option.map_some']
        rw [List.take_succ_cons, ← ih]

/-- C7, counterexample to the claim as stated: `"https://x/a?valid=true"`
has no query component with key `id`, yet `extractIDFromURL` returns
`"true"` rather than the empty ID, because the code searches for the raw
substring `"id="` anywhere in the URL and here finds it inside the key
`valid`. -/
theorem extractID_query_key_counterexample :
    hasQueryKeyId "https://x/a?valid=true".toList = false ∧
    extractIDFromURL "https://x/a?valid=true".toList = "true".toList ∧
    "true".toList ≠ ([] : List Char) := by
  refine ⟨by decide, by decide, by decide⟩

/-- C7 amended: the ID is the raw (undecoded) text that follows the first
occurrence of the substring `"id="` anywhere in the URL, truncated at the
next `"&"`; a URL not containing `"id="` at all yields the empty ID
without failing; consequently the ID never contains `"&"` and is always a
contiguous segment of the URL. -/
theorem extractIDFromURL_characterization (u : List Char) :
    (strContains u idNeedle = false → extractIDFromURL u = []) ∧
    (∀ i, strIndex u idNeedle = some i →
      extractIDFromURL u = (u.drop (i + 3)).takeWhile (fun x => decide (x ≠ '&'))) ∧
    '&' ∉ extractIDFromURL u ∧
    extractIDFromURL u <:+: u := by
  have hnone : strIndex u idNeedle = none → extractIDFromURL u = [] := by
    intro h; simp [extractIDFromURL, h]
  have hsome : ∀ i, strIndex u idNeedle = some i →
      extractIDFromURL u = (u.drop (i + 3)).takeWhile (fun x => decide (x ≠ '&')) := by
    intro i h
    simp only [extractIDFromURL, h]
    exact strIndex_single_eq_takeWhile '&' (u.drop (i + 3))
  refine ⟨?_, hsome, ?_, ?_⟩
  · intro h
    cases hi : strIndex u idNeedle with
    | none => exact hnone hi
    | some i => simp [strContains, hi] at h
  · cases hi : strIndex u idNeedle with
    | none => rw [hnone hi]; simp
    | some i =>
      rw [hsome i hi]
      intro hmem
      have hdec := List.mem_takeWhile_imp hmem
      simp at hdec
  · cases hi : strIndex u idNeedle with
    | none => rw [hnone hi]; exact ⟨[], u, by simp⟩
    | some i =>
      rw [hsome i hi]
      exact ⟨u.take (i + 3), (u.drop (i + 3)).dropWhile (fun x => decide (x ≠ '&')),
        by rw [List.append_assoc, List.takeWhile_append_dropWhile, List.take_append_drop]⟩

/-- Witness for C7 on the spec's example URL, where `"id="` first occurs
at index 7. -/
theorem extractIDFromURL_characterization_witness :
    extractIDFromURL "/a?x=1&id=W2004342886&x=1".toList =
      ("/a?x=1&id=W2004342886&x=1".toList.drop (7 + 3)).takeWhile (fun x => decide (x ≠ '&')) ∧
    extractIDFromURL "/a?x=1&id=W2004342886&x=1".toList = "W2004342886".toList :=
  ⟨(extractIDFromURL_characterization "/a?x=1&id=W2004342886&x=1".toList).2.1 7 (by decide),
    by decide⟩

/-- C8, counterexample to the claim as stated: `"ftp://x"` has a URL
scheme, yet `absoluteURL` does not return it unchanged — the code tests
for the literal text `"http"` at the front, not for the presence of a
scheme, so `"ftp://x"` is treated as relative and glued onto the site
base. -/
theorem absoluteURL_scheme_counterexample :
    specHasScheme "ftp://x".toList = true ∧
    absoluteURL "ftp://x".toList = capesBaseURL ++ "/ftp://x".toList ∧
    absoluteURL "ftp://x".toList ≠ "ftp://x".toList := by
  refine ⟨by decide, by decide, by decide⟩

/-- C8 amended: a URL beginning with the literal text `"http"` (rather
than: having a scheme) is returned unchanged, a URL beginning with `"/"`
is appended to the fixed site base, and any other URL is appended to the
base with a separating `"/"`; consequently every output of `absoluteURL`
begins with `"http"`. -/
theorem absoluteURL_cases (u : List Char) :
    (listHasPre u "http".toList = true → absoluteURL u = u) ∧
    (listHasPre u "http".toList = false → listHasPre u ['/'] = true →
      absoluteURL u = capesBaseURL ++ u) ∧
    (listHasPre u "http".toList = false → listHasPre u ['/'] = false →
      absoluteURL u = capesBaseURL ++ '/' :: u) ∧
    listHasPre (absoluteURL u) "http".toList = true := by
  have hsplit : capesBaseURL = "http".toList ++ "s://www.periodicos.capes.gov.br".toList := by
    decide
  refine ⟨?_, ?_, ?_, ?_⟩
  · intro h; unfold absoluteURL; rw [if_pos h]
  · intro h1 h2; unfold absoluteURL; rw [if_neg (by rw [h1]; simp), if_pos h2]
  · intro h1 h2; unfold absoluteURL; rw [if_neg (by rw [h1]; simp), if_neg (by rw [h2]; simp)]
  · by_cases h : listHasPre u "http".toList = true
    · unfold absoluteURL; rw [if_pos h]; exact h
    · have h0 : listHasPre u "http".toList = false := by
        revert h; cases listHasPre u "http".toList <;> simp
      by_cases h2 : listHasPre u ['/'] = true
      · unfold absoluteURL
        rw [if_neg (by rw [h0]; simp), if_pos h2, hsplit, List.append_assoc]
        exact listHasPre_append _ _
      · have h20 : listHasPre u ['/'] = false := by
          revert h2; cases listHasPre u ['/'] <;> simp
        unfold absoluteURL
        rw [if_neg (by rw [h0]; simp), if_neg (by rw [h20]; simp), hsplit, List.append_assoc]
        exact listHasPre_append _ _

/-- Witness for C8 on the spec's three example URLs. -/
theorem absoluteURL_cases_witness :
    absoluteURL "http://x".toList = "http://x".toList ∧
    absoluteURL "/foo".toList = capesBaseURL ++ "/foo".toList ∧
    absoluteURL "foo".toList = capesBaseURL ++ '/' :: "foo".toList :=
  ⟨(absoluteURL_cases "http://x".toList).1 (by decide),
    (absoluteURL_cases "/foo".toList).2.1 (by decide) (by decide),
    (absoluteURL_cases "foo".toList).2.2.1 (by decide) (by decide)⟩

/-- C9. `WriteHeader` is idempotent on every initialized writer: after a
first call, a second call returns success, changes nothing, and the number
of header rows in the output grows by exactly one header over the whole
pair of calls — so two calls on a fresh writer produce exactly one header
row. -/
theorem writeHeader_idempotent (w : CSVWriter) (h : w.initialized = true) :
    ((w.WriteHeader.1).WriteHeader).1 = w.WriteHeader.1 ∧
    ((w.WriteHeader.1).WriteHeader).2 = .ok () ∧
    (w.headerWritten = false →
      ((w.WriteHeader.1).WriteHeader).1.rows.count CSVHeader = w.rows.count CSVHeader + 1) := by
  cases hw : w.headerWritten
  · simp [CSVWriter.WriteHeader, h, hw, List.count_append]
  · simp [CSVWriter.WriteHeader, h, hw]

/-- Witness for C9 on a freshly initialized writer with empty output. -/
theorem writeHeader_idempotent_witness :
    ((⟨true, false, 0, []⟩ : CSVWriter).WriteHeader.1.WriteHeader).2 = .ok () ∧
    ((⟨true, false, 0, []⟩ : CSVWriter).WriteHeader.1.WriteHeader).1.rows.count CSVHeader = 1 := by
  refine ⟨(writeHeader_idempotent ⟨true, false, 0, []⟩ rfl).2.1, ?_⟩
  have h := (writeHeader_idempotent ⟨true, false, 0, []⟩ rfl).2.2 rfl
  simpa using h

lemma extLoop_clean : ∀ (l acc rest : List Char),
    (∀ c ∈ l, c ≠ '/' ∧ c ≠ '.') →
    extLoop (l ++ '.' :: rest) acc = '.' :: (l.reverse ++ acc) := by
  intro l
  induction l with
  | nil => intro acc rest _; simp [extLoop]
  | cons a t ih =>
    intro acc rest h
    have ha := h a (List.mem_cons_self a t)
    simp only [List.cons_append, extLoop]
    rw [if_neg ha.1, if_neg ha.2]
    rw [show t.append ('.' :: rest) = t ++ '.' :: rest from rfl]
    rw [ih (a :: acc) rest (fun c hc => h c (List.mem_cons_of_mem a hc))]
    simp

lemma filepathExt_append_ext (x ext : List Char) (h1 : '.' ∉ ext) (h2 : '/' ∉ ext) :
    filepathExt (x ++ '.' :: ext) = '.' :: ext := by
  unfold filepathExt
  rw [List.reverse_append, List.reverse_cons, List.append_assoc, List.singleton_append,
    extLoop_clean ext.reverse [] x.reverse ?cond]
  · simp
  case cond =>
    intro c hc
    have hm := List.mem_reverse.mp hc
    exact ⟨fun e => h2 (e ▸ hm), fun e => h1 (e ▸ hm)⟩

lemma extLoop_shape : ∀ (l acc : List Char), extLoop l acc = [] ∨ ∃ t, extLoop l acc = '.' :: t := by
  intro l
  induction l with
  | nil => intro acc; left; rfl
  | cons a rest ih =>
    intro acc
    by_cases h1 : a = '/'
    · left; simp [extLoop, h1]
    · by_cases h2 : a = '.'
      · right; subst h2; exact ⟨acc, by simp [extLoop, h1]⟩
      · simpa [extLoop, h1, h2] using ih (a :: acc)

lemma filepathExt_shape (path : List Char) :
    filepathExt path = [] ∨ ∃ t, filepathExt path = '.' :: t :=
  extLoop_shape path.reverse []

/-- C10. Creating a writer first rewrites the output path so its
extension matches the chosen format: a path with no extension gets
`"." + format` appended, a path with a differing extension has that
extension replaced (so the path the caller supplied can differ from the
file actually written, e.g. `"results.txt"` with CSV format becomes
`"results.csv"`), and in all cases the resulting path's extension is
`"." + format`. -/
theorem newWriter_rewrites_extension :
    (∀ path ext : List Char, filepathExt path = [] →
      newWriterFilePath path ext = path ++ '.' :: ext) ∧
    (∀ path ext : List Char, filepathExt path ≠ [] → (filepathExt path).drop 1 ≠ ext →
      newWriterFilePath path ext =
        path.take (path.length - (filepathExt path).length) ++ '.' :: ext) ∧
    (∀ path ext : List Char, '.' ∉ ext → '/' ∉ ext →
      filepathExt (newWriterFilePath path ext) = '.' :: ext) ∧
    newWriterFilePath "results.txt".toList "csv".toList = "results.csv".toList ∧
    newWriterFilePath "results.txt".toList "csv".toList ≠ "results.txt".toList := by
  have hA : ∀ path ext : List Char, filepathExt path = [] →
      newWriterFilePath path ext = path ++ '.' :: ext := by
    intro path ext h
    simp [newWriterFilePath, ensureExtension, h]
  have hB : ∀ path ext : List Char, filepathExt path ≠ [] → (filepathExt path).drop 1 ≠ ext →
      newWriterFilePath path ext =
        path.take (path.length - (filepathExt path).length) ++ '.' :: ext := by
    intro path ext h1 h2
    rw [List.drop_one] at h2
    simp [newWriterFilePath, ensureExtension, h1, h2]
  refine ⟨hA, hB, ?_, by decide, by decide⟩
  intro path ext hdot hslash
  by_cases hempty : filepathExt path = []
  · rw [hA path ext hempty]
    exact filepathExt_append_ext path ext hdot hslash
  · by_cases hdiff : (filepathExt path).drop 1 ≠ ext
    · rw [hB path ext hempty hdiff]
      exact filepathExt_append_ext _ ext hdot hslash
    · push_neg at hdiff
      rw [List.drop_one] at hdiff
      have hkeep : newWriterFilePath path ext = path := by
        simp [newWriterFilePath, ensureExtension, hempty, hdiff]
      rw [hkeep]
      rcases filepathExt_shape path with h | ⟨t, ht⟩
      · exact absurd h hempty
      · rw [ht] at hdiff ⊢
        simpa using hdiff

/-- Witness for C10 on `"results"` (no extension), `"results.txt"`
(differing extension) and a directory-qualified path. -/
theorem newWriter_rewrites_extension_witness :
    newWriterFilePath "results".toList "csv".toList = "results".toList ++ '.' :: "csv".toList ∧
    newWriterFilePath "results.txt".toList "csv".toList =
      "results.txt".toList.take
        ("results.txt".toList.length - (filepathExt "results.txt".toList).length) ++
        '.' :: "csv".toList ∧
    filepathExt (newWriterFilePath "out/data".toList "csv".toList) = '.' :: "csv".toList :=
  ⟨newWriter_rewrites_extension.1 _ _ (by decide),
    newWriter_rewrites_extension.2.1 _ _ (by decide) (by decide),
    newWriter_rewrites_extension.2.2.1 _ _ (by decide) (by decide)⟩

lemma AddResults_Results (c : SearchCollection) (rs : List SearchResult) :
    (c.AddResults rs).Results = c.Results ++ rs := rfl

lemma AddResults_TotalPages (c : SearchCollection) (rs : List SearchResult) :
    (c.AddResults rs).TotalPages = c.TotalPages := rfl

lemma UpdatePageCount_Results (c : SearchCollection) (p : Nat) :
    (c.UpdatePageCount p).Results = c.Results := by
  unfold SearchCollection.UpdatePageCount
  split <;> rfl

lemma UpdatePageCount_TotalPages (c : SearchCollection) (p : Nat) :
    (c.UpdatePageCount p).TotalPages = max c.TotalPages p := by
  unfold SearchCollection.UpdatePageCount
  split <;> simp <;> omega

lemma processPages_within (o : BrowserRun) :
    ∀ (ps : List Nat) (coll : SearchCollection),
      (∀ r ∈ coll.Results, r.PageFound ≤ coll.TotalPages) →
      ∀ r ∈ (processPages o ps coll).1.Results,
        r.PageFound ≤ (processPages o ps coll).1.TotalPages := by
  intro ps
  induction ps with
  | nil => intro coll h; simpa [processPages] using h
  | cons p rest ih =>
    intro coll h
    simp only [processPages]
    by_cases hc : o.cancelled p = true
    · rw [if_pos hc]; exact h
    · have hc0 : o.cancelled p = false := by revert hc; cases o.cancelled p <;> simp
      rw [if_neg (by rw [hc0]; simp)]
      by_cases hbk : 1 < p ∧ o.pageOpenOk p = false
      · rw [if_pos hbk]; exact h
      · rw [if_neg hbk]
        cases hl : o.links p with
        | error e =>
          simp only [extractResultsFromCurrentPage, hl]
          apply ih
          intro r hr
          rw [UpdatePageCount_Results] at hr
          rw [UpdatePageCount_TotalPages]
          have := h r hr
          omega
        | ok ls =>
          simp only [extractResultsFromCurrentPage, hl]
          apply ih
          intro r hr
          rw [UpdatePageCount_Results, AddResults_Results] at hr
          rw [UpdatePageCount_TotalPages, AddResults_TotalPages]
          rcases List.mem_append.mp hr with h1 | h2
          · have := h r h1; omega
          · have := buildResults_pageFound o.meta p ls 0 r h2; omega

/-- C6, counterexample to the claim as stated: on a run whose second page
renders zero result anchors, `UpdatePageCount` is still called with page
index 2, so the final collection has `TotalPages = 2` while the highest
`PageFound` value observed among its records is 1. -/
theorem totalPages_highest_pageFound_counterexample :
    (Process oPagesRun "t".toList 0).1.map (·.TotalPages) = some 2 ∧
    (Process oPagesRun "t".toList 0).1.map
      (fun c => (c.Results.map (·.PageFound)).foldr max 0) = some 1 := by
  refine ⟨by decide, by decide⟩

/-- C6 amended: `TotalPages` is the highest page index whose loop
iteration completed — including pages contributing no records — so it is
an upper bound on, but not always equal to, the highest `PageFound` among
the records of the collection. -/
theorem process_pageFound_le_totalPages (o : BrowserRun) (t : List Char) (mp : Int)
    (ho : o.openInitialOk = true) :
    (Process o t mp).1.map recordsWithin = some true := by
  unfold Process
  rw [if_neg (by rw [ho]; simp)]
  have h := processPages_within o (List.range' 1 (effectiveMaxPages o mp))
    (NewSearchCollection t) (by intro r hr; cases hr)
  simp only [Option.map_some', Option.some.injEq, recordsWithin, List.all_eq_true,
    decide_eq_true_eq]
  exact fun r hr => h r hr

/-- Witness for C6 on the run of the counterexample: the bound holds even
there. -/
theorem process_pageFound_le_totalPages_witness :
    (Process oPagesRun "t".toList 0).1.map recordsWithin = some true :=
  process_pageFound_le_totalPages oPagesRun "t".toList 0 rfl

lemma processPages_break (o : BrowserRun) (p : Nat)
    (hc : ∀ q, o.cancelled q = false) (hp2 : 2 ≤ p)
    (hpf : o.pageOpenOk p = false)
    (hprev : ∀ q, 2 ≤ q → q < p → o.pageOpenOk q = true) :
    ∀ (k a : Nat) (coll : SearchCollection), a ≤ p →
      (∀ r ∈ coll.Results, r.PageFound < p) → coll.TotalPages < p →
      (processPages o (List.range' a k) coll).2 = none ∧
      (∀ r ∈ (processPages o (List.range' a k) coll).1.Results, r.PageFound < p) ∧
      (processPages o (List.range' a k) coll).1.TotalPages < p := by
  intro k
  induction k with
  | zero =>
    intro a coll _ h1 h2
    exact ⟨rfl, h1, h2⟩
  | succ k ih =>
    intro a coll ha h1 h2
    rw [List.range'_succ]
    simp only [processPages]
    rw [if_neg (by rw [hc a]; simp)]
    by_cases hap : a = p
    · subst hap
      rw [if_pos ⟨by omega, hpf⟩]
      exact ⟨rfl, h1, h2⟩
    · have haltp : a < p := by omega
      have hopen : ¬(1 < a ∧ o.pageOpenOk a = false) := by
        rintro ⟨ha1, ha2⟩
        rw [hprev a (by omega) haltp] at ha2
        cases ha2
      rw [if_neg hopen]
      cases hl : o.links a with
      | error e =>
        simp only [extractResultsFromCurrentPage, hl]
        apply ih (a + 1) _ (by omega)
        · intro r hr; rw [UpdatePageCount_Results] at hr; exact h1 r hr
        · rw [UpdatePageCount_TotalPages]; omega
      | ok ls =>
        simp only [extractResultsFromCurrentPage, hl]
        apply ih (a + 1) _ (by omega)
        · intro r hr
          rw [UpdatePageCount_Results, AddResults_Results] at hr
          rcases List.mem_append.mp hr with hh | hh
          · exact h1 r hh
          · rw [buildResults_pageFound o.meta a ls 0 r hh]; omega
        · rw [UpdatePageCount_TotalPages, AddResults_TotalPages]; omega

/-- C1, counterexample to the claim as stated: on `oBreakRun` the page-2
session open fails while page 3 would open fine and carries a result;
`Process` leaves the loop at page 2 and never attempts page 3 (its
records stop at page 1 and the returned error is nil), whereas the spec's
skip-and-continue loop (`processPagesSpec`) would go on to collect the
page-3 record. -/
theorem process_skip_claim_counterexample :
    (Process oBreakRun "t".toList 0).1.map (fun c => c.Results.map (·.PageFound)) = some [1] ∧
    (Process oBreakRun "t".toList 0).2 = none ∧
    (processPagesSpec oBreakRun (List.range' 1 (effectiveMaxPages oBreakRun 0))
        (NewSearchCollection "t".toList)).1.Results.map (·.PageFound) = [1, 3] := by
  refine ⟨by decide, by decide, by decide⟩

/-- C1 amended: when opening the session for a page (past the first)
fails, the orchestrator logs the failure and `break`s out of the page
loop: the run ends with the collection accumulated so far and a nil
error, and no later page index is attempted — only extraction failures
are skipped with the loop continuing. -/
theorem process_breaks_on_page_open_failure (o : BrowserRun) (t : List Char) (mp : Int)
    (p : Nat) (ho : o.openInitialOk = true) (hc : ∀ q, o.cancelled q = false)
    (hp2 : 2 ≤ p) (hpf : o.pageOpenOk p = false)
    (hprev : ∀ q, 2 ≤ q → q < p → o.pageOpenOk q = true) :
    (Process o t mp).2 = none ∧
    (Process o t mp).1.map (fun c => recordsBelow c p && decide (c.TotalPages < p)) =
      some true := by
  unfold Process
  rw [if_neg (by rw [ho]; simp)]
  have h := processPages_break o p hc hp2 hpf hprev (effectiveMaxPages o mp) 1
    (NewSearchCollection t) (by omega) (by intro r hr; cases hr)
    (by simp [NewSearchCollection]; omega)
  refine ⟨h.1, ?_⟩
  simp only [Option.map_some', Option.some.injEq, recordsBelow, Bool.and_eq_true,
    List.all_eq_true, decide_eq_true_eq]
  exact ⟨fun r hr => h.2.1 r hr, h.2.2⟩

/-- Witness for C1 at the run `oBreakRun` with failing page 2. -/
theorem process_breaks_on_page_open_failure_witness :
    (Process oBreakRun "t".toList 0).2 = none ∧
    (Process oBreakRun "t".toList 0).1.map
      (fun c => recordsBelow c 2 && decide (c.TotalPages < 2)) = some true :=
  process_breaks_on_page_open_failure oBreakRun "t".toList 0 2 rfl (fun _ => rfl)
    (by omega) (by decide) (by intro q h1 h2; omega)

lemma processPages_cancel (o : BrowserRun) (p : Nat)
    (hcp : o.cancelled p = true)
    (hcb : ∀ q, q < p → o.cancelled q = false)
    (hopen : ∀ q, 2 ≤ q → q < p → o.pageOpenOk q = true) :
    ∀ (k a : Nat) (coll : SearchCollection), a ≤ p → p < a + k →
      (∀ r ∈ coll.Results, r.PageFound < p) →
      (processPages o (List.range' a k) coll).2 = some ProcErr.cancelled ∧
      (∀ r ∈ (processPages o (List.range' a k) coll).1.Results, r.PageFound < p) := by
  intro k
  induction k with
  | zero => intro a coll ha hlt _; omega
  | succ k ih =>
    intro a coll ha hlt h1
    rw [List.range'_succ]
    simp only [processPages]
    by_cases hap : a = p
    · subst hap
      rw [if_pos hcp]
      exact ⟨rfl, h1⟩
    · have haltp : a < p := by omega
      rw [if_neg (by rw [hcb a haltp]; simp)]
      have hopen2 : ¬(1 < a ∧ o.pageOpenOk a = false) := by
        rintro ⟨ha1, ha2⟩
        rw [hopen a (by omega) haltp] at ha2
        cases ha2
      rw [if_neg hopen2]
      cases hl : o.links a with
      | error e =>
        simp only [extractResultsFromCurrentPage, hl]
        apply ih (a + 1) _ (by omega) (by omega)
        intro r hr; rw [UpdatePageCount_Results] at hr; exact h1 r hr
      | ok ls =>
        simp only [extractResultsFromCurrentPage, hl]
        apply ih (a + 1) _ (by omega) (by omega)
        intro r hr
        rw [UpdatePageCount_Results, AddResults_Results] at hr
        rcases List.mem_append.mp hr with hh | hh
        · exact h1 r hh
        · rw [buildResults_pageFound o.meta a ls 0 r hh]; omega

/-- C2, counterexample to the claim as stated: when the initial
(primary-session) `Open` fails, `Process` does not return the partial
Collection alongside the error — it returns no collection at all (Go's
`nil`) together with the error. -/
theorem process_initial_open_counterexample :
    Process oInitFailRun "vacinas".toList 0 = (none, some ProcErr.initialOpenFailed) ∧
    (Process oInitFailRun "vacinas".toList 0).1.isSome = false := by
  refine ⟨by decide, by decide⟩

/-- C2 amended: cancellation observed at the top of the page loop stops
the run and returns the partial Collection (records only from the pages
before the cancelled iteration) together with the cancellation error; an
initial-session open failure aborts the run returning the error with no
collection (nil) rather than with the empty partial Collection. -/
theorem process_cancellation_and_initial_open :
    (∀ (o : BrowserRun) (t : List Char) (mp : Int), o.openInitialOk = false →
      Process o t mp = (none, some ProcErr.initialOpenFailed)) ∧
    (∀ (o : BrowserRun) (t : List Char) (mp : Int) (p : Nat),
      o.openInitialOk = true → o.cancelled p = true →
      (∀ q, q < p → o.cancelled q = false) →
      (∀ q, 2 ≤ q → q < p → o.pageOpenOk q = true) →
      1 ≤ p → p ≤ effectiveMaxPages o mp →
      (Process o t mp).2 = some ProcErr.cancelled ∧
      (Process o t mp).1.map (fun c => recordsBelow c p) = some true) := by
  constructor
  · intro o t mp h
    unfold Process
    rw [if_pos h]
  · intro o t mp p ho hcp hcb hopen hp1 hple
    unfold Process
    rw [if_neg (by rw [ho]; simp)]
    have h := processPages_cancel o p hcp hcb hopen (effectiveMaxPages o mp) 1
      (NewSearchCollection t) hp1 (by omega) (by intro r hr; cases hr)
    refine ⟨h.1, ?_⟩
    simp only [Option.map_some', Option.some.injEq, recordsBelow, List.all_eq_true,
      decide_eq_true_eq]
    exact fun r hr => h.2 r hr

/-- Witness for C2: the run `oCancelRun`, cancelled at page 2 of 2, and
the run `oInitFailRun`, whose initial open fails. -/
theorem process_cancellation_and_initial_open_witness :
    ((Process oCancelRun "t".toList 0).2 = some ProcErr.cancelled ∧
      (Process oCancelRun "t".toList 0).1.map (fun c => recordsBelow c 2) = some true) ∧
    Process oInitFailRun "t".toList 0 = (none, some ProcErr.initialOpenFailed) :=
  ⟨process_cancellation_and_initial_open.2 oCancelRun "t".toList 0 2 rfl rfl
      (by intro q hq; simp only [oCancelRun]; simp; omega)
      (by intro q h1 h2; omega) (by omega) (by decide),
    process_cancellation_and_initial_open.1 oInitFailRun "t".toList 0 rfl⟩

lemma goAttempts_step_ok (o : Nat → PaginationAttempt) (m attempt fuel : Nat)
    (hs : attemptSucceeds (o attempt) = true) :
    goAttempts o m attempt (fuel + 1) = .ok () := by
  simp only [attemptSucceeds, Bool.and_eq_true] at hs
  simp [goAttempts, hs.1, hs.2]

lemma goAttempts_step_fail (o : Nat → PaginationAttempt) (m attempt fuel : Nat)
    (hf : attemptSucceeds (o attempt) = false) (hne : attempt ≠ m) :
    goAttempts o m attempt (fuel + 1) = goAttempts o m (attempt + 1) fuel := by
  simp only [goAttempts]
  cases hclick : (o attempt).clickOk with
  | false => rw [if_pos rfl, if_neg hne]
  | true =>
    rw [if_neg (by simp)]
    cases hnav : (o attempt).navOk with
    | false => rw [if_pos rfl, if_neg hne]
    | true =>
      rw [if_neg (by simp)]
      cases hres : (o attempt).resultsOk with
      | false => rw [if_pos rfl, if_neg hne]
      | true => exfalso; simp [attemptSucceeds, hclick, hnav, hres] at hf

lemma goAttempts_last_fail (o : Nat → PaginationAttempt) (m fuel : Nat)
    (hf : attemptSucceeds (o m) = false) :
    goAttempts o m m (fuel + 1) ≠ .ok () := by
  simp only [goAttempts]
  cases hclick : (o m).clickOk with
  | false => simp
  | true =>
    rw [if_neg (by simp)]
    cases hnav : (o m).navOk with
    | false => simp
    | true =>
      rw [if_neg (by simp)]
      cases hres : (o m).resultsOk with
      | false => simp
      | true => exfalso; simp [attemptSucceeds, hclick, hnav, hres] at hf

lemma goAttempts_ok_iff (o : Nat → PaginationAttempt) (m : Nat) :
    ∀ (fuel attempt : Nat), attempt + fuel = m + 1 →
      (goAttempts o m attempt fuel = .ok () ↔
        ∃ k, attempt ≤ k ∧ k ≤ m ∧ attemptSucceeds (o k) = true) := by
  intro fuel
  induction fuel with
  | zero =>
    intro attempt hsum
    constructor
    · intro h; exact absurd h (by simp [goAttempts])
    · rintro ⟨k, hk1, hk2, _⟩; omega
  | succ fuel ih =>
    intro attempt hsum
    by_cases hs : attemptSucceeds (o attempt) = true
    · rw [goAttempts_step_ok o m attempt fuel hs]
      constructor
      · intro _; exact ⟨attempt, Nat.le_refl attempt, by omega, hs⟩
      · intro _; rfl
    · have hf : attemptSucceeds (o attempt) = false := by
        revert hs; cases attemptSucceeds (o attempt) <;> simp
      by_cases ham : attempt = m
      · subst ham
        constructor
        · intro h; exact absurd h (goAttempts_last_fail o attempt fuel hf)
        · rintro ⟨k, hk1, hk2, hsk⟩
          have hke : k = attempt := by omega
          subst hke
          rw [hsk] at hf
          simp at hf
      · rw [goAttempts_step_fail o m attempt fuel hf ham,
          ih (attempt + 1) (by omega)]
        constructor
        · rintro ⟨k, hk1, hk2, hsk⟩; exact ⟨k, by omega, hk2, hsk⟩
        · rintro ⟨k, hk1, hk2, hsk⟩
          rcases Nat.eq_or_lt_of_le hk1 with he | hlt
          · subst he
            rw [hsk] at hf
            simp at hf
          · exact ⟨k, by omega, hk2, hsk⟩

/-- C4, counterexample to the claim as stated: on an oracle whose two
scroll steps always fail (while click and both waits always succeed), the
code returns success on the very first attempt — scroll failures are only
logged, they do not trigger the claimed retry of the whole sequence,
under which all three attempts would fail (`goToNextPageSpec` errors);
moreover with the configured `NavigationTimeout = 30` the
navigation-wait timeout is the constant 30 on every attempt instead of
growing additively with the attempt number. -/
theorem goToNextPage_claim_counterexample :
    goToNextPage oScrollFail 3 = .ok () ∧
    goToNextPageSpec oScrollFail 3 = .error () ∧
    navTimeoutFor 30 1 = 30 ∧ navTimeoutFor 30 2 = 30 ∧ navTimeoutFor 30 3 = 30 := by
  refine ⟨by decide, by decide, by decide, by decide, by decide⟩

/-- C4 amended: each attempt runs the five steps but failures of the two
scroll steps are only logged; a failure of the click, the navigation wait
or the result-marker wait aborts the attempt and retries after a backoff;
the transition succeeds exactly when some attempt `k ≤ MaxAttempts` has
those three steps succeed, and reports a pagination failure only after
all `MaxAttempts` attempts are exhausted; the navigation-wait timeout is
the constant configured value whenever one is configured (positive), and
grows additively with the attempt number only in the unconfigured
fallback. -/
theorem goToNextPage_retry_semantics :
    (∀ (o : Nat → PaginationAttempt) (r : Int),
      (goToNextPage o r = .ok () ↔
        ∃ k, 1 ≤ k ∧ k ≤ goMaxRetries r ∧ attemptSucceeds (o k) = true)) ∧
    (∀ t : Int, 0 < t → ∀ a : Nat, navTimeoutFor t a = t) ∧
    (∀ (t : Int) (a : Nat), t ≤ 0 → navTimeoutFor t a = 20 + ((a : Int) - 1) * 5) := by
  refine ⟨?_, ?_, ?_⟩
  · intro o r
    exact goAttempts_ok_iff o (goMaxRetries r) (goMaxRetries r) 1 (by omega)
  · intro t ht a
    simp only [navTimeoutFor]
    rw [if_neg (by omega)]
  · intro t a ht
    simp only [navTimeoutFor]
    rw [if_pos ht, if_pos ht]

/-- Witness for C4: the spec's retry example (attempts 1 and 2 fail,
attempt 3 succeeds, `MaxAttempts = 3`) returns success, and the two
timeout regimes at attempt 2. -/
theorem goToNextPage_retry_semantics_witness :
    goToNextPage oThirdTry 3 = .ok () ∧
    navTimeoutFor 30 2 = 30 ∧
    navTimeoutFor 0 2 = 25 :=
  ⟨(goToNextPage_retry_semantics.1 oThirdTry 3).mpr ⟨3, by omega, by decide, by decide⟩,
    goToNextPage_retry_semantics.2.1 30 (by omega) 2,
    by rw [goToNextPage_retry_semantics.2.2 0 2 (by omega)]; decide⟩
